import Mathlib

/-!
Verification of the `angular-build-info` CLI (`src/bin/build-info.js`).

The script is embedded shallowly: all external inputs of one run (process
arguments, the stdout/stderr captured from the two `git` invocations, the
manifest version, the formatted current time, the working directory and the
success of the file write) are gathered in a `World`; the run's observable
behaviour (console messages, an uncaught thrown value if any, and the file
written) is a `RunResult`.  The JavaScript runtime pieces the script relies
on (`String.prototype.replace` with a string pattern, `JSON.stringify` with
indent 4, `String.prototype.replace` with the global key-unquoting regex)
are modelled character by character.
-/

namespace AngularBuildInfo

/-- Console messages, tagged with the signale severity used by the script. -/
inductive LogMsg where
  | start (m : String)
  | info (m : String)
  | infoRecord (r : List (String × Option String))
  | error (m : String)
  | success (m : String)
deriving DecidableEq

/-- Captured output of one external command: its stdout and stderr text. -/
structure ExecResult where
  stdout : String
  stderr : String
deriving DecidableEq

/-- All external inputs consumed by one run of the script: `args` is
`process.argv.slice(2)`, `execHash` the outcome of `git rev-parse --short
HEAD`, `execUser` the outcome of `git config user.name`, `version` the
manifest's version field, `now` the already-formatted `moment()` timestamp,
`cwd` the working directory, and `writeOk` whether `fs.writeFile`
succeeds. -/
structure World where
  args : List String
  execHash : ExecResult
  execUser : ExecResult
  version : String
  now : String
  cwd : String
  writeOk : Bool
deriving DecidableEq

/-- The recognized option tokens (the `opts` array of the script). -/
def opts : List String :=
  ["--help", "--init", "--no-hash", "--no-user", "--no-version", "--no-time"]

/-- JS `s.replace("\n", "")`: a string pattern replaces only the FIRST
occurrence, so exactly the first newline character is removed. -/
def stripNL : List Char → List Char
  | [] => []
  | c :: cs => if c = '\n' then cs else c :: stripNL cs

/-- `stdout.replace("\n", "")` at the `String` level. -/
def stripNewline (s : String) : String := String.mk (stripNL s.data)

/-- `getGitUser`: on a truthy (nonempty) stderr, logs an error and yields
`undefined`; otherwise logs success and yields the stdout with its first
newline removed.  The script never throws here. -/
def getGitUser (r : ExecResult) : Option String × List LogMsg :=
  if r.stderr ≠ "" then
    (none, [.error "Error getting git user, skipping..."])
  else
    (some (stripNewline r.stdout),
      [.success ("Found git user: " ++ stripNewline r.stdout)])

/-- `getCommitHash`: same shape as `getGitUser` for the revision query. -/
def getCommitHash (r : ExecResult) : Option String × List LogMsg :=
  if r.stderr ≠ "" then
    (none, [.error "Error getting latest commit hash, skipping..."])
  else
    (some (stripNewline r.stdout),
      [.success ("Found commit hash: " ++ stripNewline r.stdout)])

/-- The message thrown by `buildInfo` for an unrecognized argument. -/
def unknownArgMsg (a : String) : String :=
  "Error: Unknown arg \"" ++ a ++ "\", please re-check arguments before running the tool again!"

/-- The `args.map(arg => { if (!opts.includes(arg)) throw ... })` check:
throws for the first argument not in `opts`. -/
def checkArgs : List String → Except String Unit
  | [] => .ok ()
  | a :: rest =>
    if opts.contains a then checkArgs rest else .error (unknownArgMsg a)

/-- The build record assembled by `buildInfo`: each of the four fields is
inserted (in source order hash, user, version, timestamp) unless its
suppression flag is present; a field whose lookup failed is inserted with
value `none`, mirroring `build.hash = undefined` which keeps the key. -/
def assembleRecord (w : World) : List (String × Option String) :=
  (if w.args.contains "--no-hash" then [] else [("hash", (getCommitHash w.execHash).1)]) ++
  (if w.args.contains "--no-user" then [] else [("user", (getGitUser w.execUser).1)]) ++
  (if w.args.contains "--no-version" then [] else [("version", some w.version)]) ++
  (if w.args.contains "--no-time" then [] else [("timestamp", some w.now)])

/-- Console output of the two conditional metadata lookups, in source order
(hash first, then user). -/
def lookupLogs (w : World) : List LogMsg :=
  (if w.args.contains "--no-hash" then [] else (getCommitHash w.execHash).2) ++
  (if w.args.contains "--no-user" then [] else (getGitUser w.execUser).2)

/-- The suppression flag controlling each record key (note `timestamp` is
controlled by `--no-time`). -/
def suppressionFlag (k : String) : String :=
  if k = "timestamp" then "--no-time" else "--no-" ++ k

/-- One hexadecimal digit, lower case, as produced by JS escaping. -/
def hexDigit (n : Nat) : Char :=
  if n < 10 then Char.ofNat (48 + n) else Char.ofNat (87 + n)

/-- `JSON.stringify` escaping of a single character inside a string
literal. -/
def escChar (c : Char) : List Char :=
  if c = '"' then ['\\', '"']
  else if c = '\\' then ['\\', '\\']
  else if c = '\n' then ['\\', 'n']
  else if c = '\r' then ['\\', 'r']
  else if c = '\t' then ['\\', 't']
  else if c = Char.ofNat 8 then ['\\', 'b']
  else if c = Char.ofNat 12 then ['\\', 'f']
  else if c.toNat < 32 then
    ['\\', 'u', '0', '0', hexDigit (c.toNat / 16), hexDigit (c.toNat % 16)]
  else [c]

/-- `JSON.stringify` escaping of a character sequence. -/
def escL : List Char → List Char
  | [] => []
  | c :: cs => escChar c ++ escL cs

/-- `JSON.stringify` escaping at the `String` level. -/
def escString (s : String) : String := String.mk (escL s.data)

/-- A JSON double-quoted string literal. -/
def jsonQuote (s : String) : String := "\"" ++ escString s ++ "\""

/-- `JSON.stringify` drops object properties whose value is `undefined`;
these are the key/value pairs that actually get rendered. -/
def presentFields : List (String × Option String) → List (String × String)
  | [] => []
  | (k, some v) :: rest => (k, v) :: presentFields rest
  | (_, none) :: rest => presentFields rest

/-- One rendered property line at indent 4: `    "key": "value"`. -/
def renderField (kv : String × String) : String :=
  "    " ++ jsonQuote kv.1 ++ ": " ++ jsonQuote kv.2

/-- Property lines joined by `,\n`, as `JSON.stringify(_, null, 4)` does. -/
def joinFields : List String → String
  | [] => ""
  | [s] => s
  | s :: t :: rest => s ++ ",\n" ++ joinFields (t :: rest)

/-- `JSON.stringify(build, null, 4)` on a string-or-undefined record. -/
def jsonStringifyObj4 (fields : List (String × Option String)) : String :=
  match presentFields fields with
  | [] => "\x7b\x7d"
  | ps => "\x7b\n" ++ joinFields (ps.map renderField) ++ "\n\x7d"

/-- The character class excluded by the regex `[^(\")"]`, namely an opening
parenthesis, a double quote, or a closing parenthesis. -/
def exclChar (c : Char) : Bool := c = '(' || c = '"' || c = ')'

/-- Attempt of the regex `\"([^(\")"]+)\":` at a position right after an
opening double quote: the maximal run of non-excluded characters must be
nonempty and be followed by a quote and a colon.  On success, returns the
captured run and the text after the match. -/
def ukStep? (rest : List Char) : Option (List Char × List Char) :=
  if (rest.dropWhile (fun x => !exclChar x)).head? = some '"' ∧
      ((rest.dropWhile (fun x => !exclChar x)).tail).head? = some ':' ∧
      rest.takeWhile (fun x => !exclChar x) ≠ [] then
    some (rest.takeWhile (fun x => !exclChar x),
      ((rest.dropWhile (fun x => !exclChar x)).tail).tail)
  else none

/-- One left-to-right pass of `.replace(/\"([^(\")"]+)\":/g, "$1:")`: at a
double quote, a successful match is rewritten to the captured run and the
colon and scanning resumes after the match; otherwise the character is kept
and scanning resumes one position further.  Structured with fuel so that it
is structural recursion. -/
def ukAux : Nat → List Char → List Char
  | 0, l => l
  | _ + 1, [] => []
  | fuel + 1, c :: rest =>
    if c = '"' then
      match ukStep? rest with
      | some (run, tail) => run ++ ':' :: ukAux fuel tail
      | none => '"' :: ukAux fuel rest
    else c :: ukAux fuel rest

/-- The global key-unquoting substitution on a character list. -/
def uk (l : List Char) : List Char := ukAux l.length l

/-- The key-unquoting substitution at the `String` level. -/
def unquoteKeys (s : String) : String := String.mk (uk s.data)

/-- The fixed auto-generated-notice comment line. -/
def autoGenComment : String :=
  "// Angular build information, automatically generated by `angular-build-info`\n"

/-- The full serialized file contents produced from a record: comment line,
declaration head, the key-unquoted `JSON.stringify` text, and `;`. -/
def serialize (fields : List (String × Option String)) : String :=
  autoGenComment ++ "export const buildInfo = " ++
    unquoteKeys (jsonStringifyObj4 fields) ++ ";\n"

/-- `process.cwd() + "/src/build.ts"`. -/
def exportPath (w : World) : String := w.cwd ++ "/src/build.ts"

/-- Observable behaviour of one run: console messages in order, the
uncaught thrown value if the run aborted, and the file written (path and
contents) if any. -/
structure RunResult where
  logs : List LogMsg
  thrown : Option String
  written : Option (String × String)
deriving DecidableEq

/-- The `buildInfo` pipeline: log start, validate arguments (throwing on
the first unknown one), assemble the record, serialize it, and attempt the
write, logging success or a path-naming error without rethrowing. -/
def buildInfo (w : World) : RunResult :=
  match checkArgs w.args with
  | .error e =>
    { logs := [.start "Collecting build information..."]
      thrown := some e
      written := none }
  | .ok _ =>
    let build := assembleRecord w
    let contents := serialize build
    if w.writeOk then
      { logs := .start "Collecting build information..." ::
          (lookupLogs w ++ [.infoRecord build] ++
            [.success ("Saved build information to `" ++ exportPath w ++ "`")])
        thrown := none
        written := some (exportPath w, contents) }
    else
      { logs := .start "Collecting build information..." ::
          (lookupLogs w ++ [.infoRecord build] ++
            [.error ("An error occured writing to `" ++ exportPath w ++ "`, does the path exist?")])
        thrown := none
        written := none }

/-- The placeholder record written by `--init`, in its source insertion
order user, hash, version, timestamp. -/
def initTemplate (now : String) : List (String × Option String) :=
  [("user", some "Octocat"), ("hash", some "1e872b5"),
   ("version", some "1.0.0"), ("timestamp", some now)]

/-- The `init` scaffold flow: onboarding messages, then the same
serialize-and-write step applied to the placeholder record. -/
def initRun (w : World) : RunResult :=
  let contents := serialize (initTemplate w.now)
  let preLogs : List LogMsg :=
    [ .info "Welcome to `angular-build-info`!"
    , .info ("We will now create a boilerplate `build.ts` file in `" ++ exportPath w ++
        "` and fill it with basic information so you can start implementing it in your front-end.")
    , .info "If you wish for more info on how to implement the provided info in your Angular app, feel free to check out the main repo over at https://github.com/4dams/angular-build-info"
    , .start "Creating `build.ts` file..." ]
  if w.writeOk then
    { logs := preLogs ++
        [ .success "Successfully created `build.ts` file!"
        , .info "You should now modify your build/deploy scripts in your `package.json` file to run this script every time before your Angular app is built. An example would be:"
        , .info "[...] \"build\": \"build-info && ng build --prod\", [...]"
        , .info "Again, you can find more info on implementing this tool on the main repo." ]
      thrown := none
      written := some (exportPath w, contents) }
  else
    { logs := preLogs ++
        [.error ("An error occured writing to `" ++ exportPath w ++ "`, does the path exist?")]
      thrown := none
      written := none }

/-- The fixed usage text printed by `displayManual`. -/
def usageLogs : List LogMsg :=
  [ .info "Welcome to `angular-build-info`!"
  , .info ""
  , .info "--help          Displays this message"
  , .info "--init          Creates template `build.ts` file so you can start implementing it"
  , .info "--no-hash       Will not add latest commit hash to final `build.ts`"
  , .info "--no-user       Will not add git username to final `build.ts`"
  , .info "--no-version    Will not add version from `package.json` to `build.ts`"
  , .info "--no-time       Will not add timestamp to final `build.ts`" ]

/-- The `--help` flow: print the manual, no write, no throw. -/
def helpRun : RunResult :=
  { logs := usageLogs, thrown := none, written := none }

/-- The `start` dispatcher: `--init` wins, then `--help`, else the full
pipeline. -/
def start (w : World) : RunResult :=
  if w.args.contains "--init" then initRun w
  else if w.args.contains "--help" then helpRun
  else buildInfo w


/-- Spec-side helper: does the text begin with the pattern? -/
def begWith : List Char → List Char → Bool
  | [], _ => true
  | _ :: _, [] => false
  | p :: ps, c :: cs => p = c && begWith ps cs

/-- Spec-side helper: does the pattern occur contiguously in the text? -/
def containsSeg (pat : List Char) : List Char → Bool
  | [] => begWith pat []
  | c :: cs => begWith pat (c :: cs) || containsSeg pat cs

/-- A sample run input with both lookups succeeding and the write enabled. -/
def sampleWorld : World :=
  { args := []
    execHash := { stdout := "1e872b5\n", stderr := "" }
    execUser := { stdout := "Jane Doe\n", stderr := "" }
    version := "2.3.1"
    now := "May 01, 2020 12:00:00"
    cwd := "/proj"
    writeOk := true }

/-- The characters of the `JSON.stringify` body from the first key on
(the text following the opening brace, newline and first indent), for a
nonempty present-field list. -/
def jsonFieldsL : List (String × String) → List Char
  | [] => ['\n', '\x7d']
  | [(k, v)] =>
      '"' :: (escL k.data ++ '"' :: ':' :: (' ' :: '"' :: (escL v.data ++ '"' ::
        ['\n', '\x7d'])))
  | (k, v) :: kv2 :: rest =>
      '"' :: (escL k.data ++ '"' :: ':' :: (' ' :: '"' :: (escL v.data ++ '"' ::
        ([',', '\n', ' ', ' ', ' ', ' '] ++ jsonFieldsL (kv2 :: rest)))))

/-- The same text after the key-unquoting substitution: keys bare, values
still double-quoted and escaped. -/
def bareFieldsL : List (String × String) → List Char
  | [] => ['\n', '\x7d']
  | [(k, v)] =>
      k.data ++ ':' :: ' ' :: '"' :: (escL v.data ++ '"' :: ['\n', '\x7d'])
  | (k, v) :: kv2 :: rest =>
      k.data ++ ':' :: ' ' :: '"' :: (escL v.data ++ '"' ::
        ([',', '\n', ' ', ' ', ' ', ' '] ++ bareFieldsL (kv2 :: rest)))

/-- Expected rendering of the present fields with bare keys: each field is
`key: "escaped value"`, separated by a comma, newline and 4-space indent. -/
def bareFields : List (String × String) → String
  | [] => ""
  | [(k, v)] => k ++ ": \"" ++ escString v ++ "\""
  | (k, v) :: kv2 :: rest =>
      k ++ ": \"" ++ escString v ++ "\",\n    " ++ bareFields (kv2 :: rest)

/-- Expected serialized object literal for a present-field list: the empty
object for no fields, else the brace-wrapped 4-indented field lines. -/
def bareRender : List (String × String) → String
  | [] => "\x7b\x7d"
  | ps => "\x7b\n    " ++ bareFields ps ++ "\n\x7d"

/-! ### Supporting lemmas -/

theorem dataInj {s t : String} (h : s.data = t.data) : s = t := by
  cases s
  cases t
  exact congrArg String.mk h

theorem dropWhile_append_stuck {p : Char → Bool} {a : List Char} {d : Char}
    {ds : List Char} (h : a.dropWhile p = d :: ds) (b : List Char) :
    (a ++ b).dropWhile p = d :: (ds ++ b) := by
  induction a with
  | nil => simp [List.dropWhile] at h
  | cons c cs ih =>
    rw [List.cons_append]
    by_cases hc : p c
    · rw [List.dropWhile_cons, if_pos hc] at h
      rw [List.dropWhile_cons, if_pos hc]
      exact ih h
    · rw [List.dropWhile_cons, if_neg hc] at h
      rw [List.dropWhile_cons, if_neg hc]
      injection h with h1 h2
      subst h1
      subst h2
      rfl

theorem dropWhile_head_mem {p : Char → Bool} {a : List Char} {d : Char}
    {ds : List Char} (h : a.dropWhile p = d :: ds) : p d = false ∧ d ∈ a := by
  induction a with
  | nil => simp [List.dropWhile] at h
  | cons c cs ih =>
    by_cases hc : p c
    · rw [List.dropWhile_cons, if_pos hc] at h
      rcases ih h with ⟨h1, h2⟩
      exact ⟨h1, List.mem_cons_of_mem c h2⟩
    · rw [List.dropWhile_cons, if_neg hc] at h
      injection h with h1 h2
      constructor
      · rw [← h1]
        simpa using hc
      · rw [← h1]
        exact List.mem_cons_self c cs

/-- Reconstruction of the scanned text from a successful regex step. -/
theorem ukStep?_eq_some {rest run tail : List Char}
    (h : ukStep? rest = some (run, tail)) :
    rest = run ++ '"' :: ':' :: tail ∧ run ≠ [] ∧ ∀ c ∈ run, exclChar c = false := by
  unfold ukStep? at h
  split at h
  next hcond =>
    rcases hcond with ⟨h1, h2, h3⟩
    rcases hrem : rest.dropWhile (fun x => !exclChar x) with _ | ⟨d, tl⟩
    · rw [hrem] at h1
      simp at h1
    · rw [hrem] at h1 h2
      simp only [List.head?_cons, Option.some.injEq] at h1
      rcases htl : tl with _ | ⟨d2, tl2⟩
      · rw [htl] at h2
        simp at h2
      · rw [htl] at h2
        simp only [List.tail_cons, List.head?_cons, Option.some.injEq] at h2
        rw [hrem, htl] at h
        simp only [List.tail_cons, Option.some.injEq, Prod.mk.injEq] at h
        rcases h with ⟨hrun, htail⟩
        refine ⟨?_, ?_, ?_⟩
        · conv_lhs => rw [← List.takeWhile_append_dropWhile
            (p := fun x => !exclChar x) (l := rest)]
          rw [hrem, htl, hrun, htail, h1, h2]
        · rw [← hrun]
          exact h3
        · intro c hc
          rw [← hrun] at hc
          have := List.mem_takeWhile_imp hc
          simpa using this
  next =>
    exact absurd h (by simp)

theorem ukStep?_tail_le {rest run tail : List Char}
    (h : ukStep? rest = some (run, tail)) : tail.length ≤ rest.length := by
  rcases ukStep?_eq_some h with ⟨h1, -, -⟩
  rw [h1]
  simp only [List.length_append, List.length_cons]
  omega

/-- Definitional unfolding of the scanner at a cons cell. -/
theorem ukAux_succ_cons (fuel : Nat) (c : Char) (rest : List Char) :
    ukAux (fuel + 1) (c :: rest) =
      if c = '"' then
        match ukStep? rest with
        | some (run, tail) => run ++ ':' :: ukAux fuel tail
        | none => '"' :: ukAux fuel rest
      else c :: ukAux fuel rest := rfl

/-- The scanner does not depend on the fuel once the fuel covers the length
of the text. -/
theorem ukAux_irrel :
    ∀ (f g : Nat) (l : List Char), l.length ≤ f → l.length ≤ g →
      ukAux f l = ukAux g l := by
  intro f
  induction f with
  | zero =>
    intro g l hf _
    have hl : l = [] := List.eq_nil_of_length_eq_zero (Nat.le_zero.mp hf)
    subst hl
    cases g <;> rfl
  | succ f ih =>
    intro g l hf hg
    cases l with
    | nil => cases g <;> rfl
    | cons c rest =>
      cases g with
      | zero => simp at hg
      | succ g' =>
        have hrf : rest.length ≤ f := by simpa using hf
        have hrg : rest.length ≤ g' := by simpa using hg
        rw [ukAux_succ_cons, ukAux_succ_cons]
        by_cases hc : c = '"'
        · rcases hstep : ukStep? rest with _ | ⟨run, tail⟩
          · simp only [hc, if_true, hstep]
            rw [ih g' rest hrf hrg]
          · have htail := ukStep?_tail_le hstep
            simp only [hc, if_true, hstep]
            rw [ih g' tail (le_trans htail hrf) (le_trans htail hrg)]
        · simp only [hc, if_false]
          rw [ih g' rest hrf hrg]

theorem uk_nil : uk [] = [] := rfl

theorem uk_cons_ne {c : Char} (hc : c ≠ '"') (l : List Char) :
    uk (c :: l) = c :: uk l := by
  unfold uk
  rw [show (c :: l).length = l.length + 1 from rfl, ukAux_succ_cons, if_neg hc]

theorem uk_noquote {a : List Char} (ha : ∀ c ∈ a, c ≠ '"') : uk a = a := by
  induction a with
  | nil => rfl
  | cons c cs ih =>
    rw [uk_cons_ne (ha c (List.mem_cons_self c cs)) cs]
    rw [ih fun x hx => ha x (List.mem_cons_of_mem c hx)]

theorem uk_append_noquote {a : List Char} (ha : ∀ c ∈ a, c ≠ '"')
    (l : List Char) : uk (a ++ l) = a ++ uk l := by
  induction a with
  | nil => simp
  | cons c cs ih =>
    rw [List.cons_append, uk_cons_ne (ha c (List.mem_cons_self c cs))]
    rw [ih fun x hx => ha x (List.mem_cons_of_mem c hx)]
    rfl

/-- A successful key match: the captured run is replaced and scanning
resumes after the match. -/
theorem uk_key_match {k : List Char} (hk : k ≠ [])
    (hkc : ∀ c ∈ k, exclChar c = false) (m : List Char) :
    uk ('"' :: (k ++ '"' :: ':' :: m)) = k ++ ':' :: uk m := by
  have hall : ∀ c ∈ k, (fun x => !exclChar x) c = true := by
    intro c hc
    simp [hkc c hc]
  have hdw : (k ++ '"' :: ':' :: m).dropWhile (fun x => !exclChar x) =
      '"' :: ':' :: m := by
    rw [List.dropWhile_append_of_pos hall, List.dropWhile_cons,
      if_neg (by decide)]
  have htw : (k ++ '"' :: ':' :: m).takeWhile (fun x => !exclChar x) = k := by
    rw [List.takeWhile_append_of_pos hall, List.takeWhile_cons,
      if_neg (by decide), List.append_nil]
  have hstep : ukStep? (k ++ '"' :: ':' :: m) = some (k, m) := by
    unfold ukStep?
    rw [hdw, htw, if_pos]
    · rfl
    · exact ⟨rfl, rfl, hk⟩
  have hm : m.length ≤ (k ++ '"' :: ':' :: m).length := by
    simp only [List.length_append, List.length_cons]
    omega
  unfold uk
  rw [show ('"' :: (k ++ '"' :: ':' :: m)).length =
    (k ++ '"' :: ':' :: m).length + 1 from rfl, ukAux_succ_cons, if_pos rfl, hstep]
  show k ++ ':' :: ukAux (k ++ '"' :: ':' :: m).length m = k ++ ':' :: ukAux m.length m
  rw [ukAux_irrel _ _ m hm le_rfl]

/-- A failed attempt at a quote: the quote is kept and scanning resumes one
position further. -/
theorem uk_quote_fail {l : List Char} (h : ukStep? l = none) :
    uk ('"' :: l) = '"' :: uk l := by
  unfold uk
  rw [show ('"' :: l).length = l.length + 1 from rfl, ukAux_succ_cons,
    if_pos rfl, h]

theorem ukStep?_none_of_colon {l : List Char}
    (h : ((l.dropWhile (fun x => !exclChar x)).tail).head? ≠ some ':') :
    ukStep? l = none := by
  unfold ukStep?
  rw [if_neg]
  intro hcond
  exact h hcond.2.1

theorem ukStep?_none_of_quote {l : List Char}
    (h : (l.dropWhile (fun x => !exclChar x)).head? ≠ some '"') :
    ukStep? l = none := by
  unfold ukStep?
  rw [if_neg]
  intro hcond
  exact h hcond.1

/-- A serialized string value surrounded by quotes passes through the
substitution untouched when the value has no embedded quote and what
follows its closing quote cannot complete a match. -/
theorem uk_value {v m : List Char} (hv : ∀ c ∈ v, c ≠ '"')
    (hm1 : m.head? ≠ some ':') (hm2 : ukStep? m = none) :
    uk ('"' :: (v ++ '"' :: m)) = '"' :: (v ++ '"' :: uk m) := by
  have hfail : ukStep? (v ++ '"' :: m) = none := by
    rcases hdv : v.dropWhile (fun x => !exclChar x) with _ | ⟨d, ds⟩
    · apply ukStep?_none_of_colon
      have hall : ∀ c ∈ v, (fun x => !exclChar x) c = true :=
        List.dropWhile_eq_nil_iff.mp hdv
      rw [List.dropWhile_append_of_pos hall, List.dropWhile_cons,
        if_neg (by decide)]
      simpa using hm1
    · apply ukStep?_none_of_quote
      rw [dropWhile_append_stuck hdv]
      have hd := dropWhile_head_mem hdv
      simp only [List.head?_cons, ne_eq, Option.some.injEq]
      exact hv d hd.2
  rw [uk_quote_fail hfail, uk_append_noquote hv, uk_quote_fail hm2]

theorem hexDigit_ne_quote : ∀ n < 16, hexDigit n ≠ '"' := by decide

theorem escChar_no_quote {c : Char} (hc : c ≠ '"') : ∀ d ∈ escChar c, d ≠ '"' := by
  unfold escChar
  split_ifs with h1 h2 h3 h4 h5 h6 h7 h8
  · exact absurd h1 hc
  · decide
  · decide
  · decide
  · decide
  · decide
  · decide
  · intro d hd
    simp only [List.mem_cons, List.not_mem_nil, or_false] at hd
    rcases hd with h | h | h | h | h | h
    · subst h; decide
    · subst h; decide
    · subst h; decide
    · subst h; decide
    · subst h
      exact hexDigit_ne_quote _ (by omega)
    · subst h
      exact hexDigit_ne_quote _ (Nat.mod_lt _ (by omega))
  · intro d hd
    simp only [List.mem_cons, List.not_mem_nil, or_false] at hd
    subst hd
    exact hc

theorem escL_no_quote {l : List Char} (h : ∀ c ∈ l, c ≠ '"') :
    ∀ d ∈ escL l, d ≠ '"' := by
  induction l with
  | nil =>
    intro d hd
    simp [escL] at hd
  | cons c cs ih =>
    intro d hd
    rw [show escL (c :: cs) = escChar c ++ escL cs from rfl] at hd
    rcases List.mem_append.mp hd with h1 | h2
    · exact escChar_no_quote (h c (List.mem_cons_self c cs)) d h1
    · exact ih (fun x hx => h x (List.mem_cons_of_mem c hx)) d h2

theorem stripNL_append_newline {l : List Char} (h : '\n' ∉ l) :
    stripNL (l ++ ['\n']) = l := by
  induction l with
  | nil => rfl
  | cons c cs ih =>
    have hc : c ≠ '\n' := fun hh => h (hh ▸ List.mem_cons_self c cs)
    rw [List.cons_append,
      show stripNL (c :: (cs ++ ['\n'])) =
        if c = '\n' then cs ++ ['\n'] else c :: stripNL (cs ++ ['\n']) from rfl,
      if_neg hc, ih fun hh => h (List.mem_cons_of_mem c hh)]

theorem checkArgs_ok {l : List String} (h : ∀ a ∈ l, a ∈ opts) :
    checkArgs l = .ok () := by
  induction l with
  | nil => rfl
  | cons a rest ih =>
    rw [show checkArgs (a :: rest) =
        if opts.contains a then checkArgs rest else .error (unknownArgMsg a)
      from rfl, if_pos (List.elem_iff.mpr (h a (List.mem_cons_self a rest)))]
    exact ih fun x hx => h x (List.mem_cons_of_mem a hx)

theorem checkArgs_error {l : List String} (h : ∃ a ∈ l, a ∉ opts) :
    ∃ bad, bad ∈ l ∧ bad ∉ opts ∧ checkArgs l = .error (unknownArgMsg bad) := by
  induction l with
  | nil =>
    rcases h with ⟨a, ha, -⟩
    exact absurd ha (List.not_mem_nil a)
  | cons a rest ih =>
    by_cases hmem : a ∈ opts
    · have hrest : ∃ x ∈ rest, x ∉ opts := by
        rcases h with ⟨x, hx, hnx⟩
        rcases List.mem_cons.mp hx with h1 | h2
        · exact absurd (h1 ▸ hmem) hnx
        · exact ⟨x, h2, hnx⟩
      rcases ih hrest with ⟨bad, hb1, hb2, hb3⟩
      refine ⟨bad, List.mem_cons_of_mem a hb1, hb2, ?_⟩
      rw [show checkArgs (a :: rest) =
          if opts.contains a then checkArgs rest else .error (unknownArgMsg a)
        from rfl, if_pos (List.elem_iff.mpr hmem)]
      exact hb3
    · refine ⟨a, List.mem_cons_self a rest, hmem, ?_⟩
      have hcon : ¬(opts.contains a = true) :=
        fun hc => hmem (List.elem_iff.mp hc)
      rw [show checkArgs (a :: rest) =
          if opts.contains a then checkArgs rest else .error (unknownArgMsg a)
        from rfl, if_neg hcon]

theorem presentFields_append (a b : List (String × Option String)) :
    presentFields (a ++ b) = presentFields a ++ presentFields b := by
  induction a with
  | nil => rfl
  | cons kv rest ih =>
    rcases kv with ⟨k, _ | v⟩
    · rw [List.cons_append,
        show presentFields ((k, none) :: (rest ++ b)) = presentFields (rest ++ b)
          from rfl, ih]
      rfl
    · rw [List.cons_append,
        show presentFields ((k, some v) :: (rest ++ b)) =
          (k, v) :: presentFields (rest ++ b) from rfl, ih]
      rfl

/-- One rendered field (leading separator, bare-quoted key, colon, space,
quoted value) passes the substitution with exactly the key unquoted. -/
theorem uk_field {sep K E m : List Char}
    (hsep : ∀ c ∈ sep, c ≠ '"')
    (hK : K ≠ []) (hKc : ∀ c ∈ K, exclChar c = false)
    (hE : ∀ c ∈ E, c ≠ '"')
    (hm1 : m.head? ≠ some ':') (hm2 : ukStep? m = none) :
    uk (sep ++ '"' :: (K ++ '"' :: ':' :: (' ' :: '"' :: (E ++ '"' :: m)))) =
      sep ++ (K ++ ':' :: ' ' :: '"' :: (E ++ '"' :: uk m)) := by
  rw [uk_append_noquote hsep, uk_key_match hK hKc,
    uk_cons_ne (by decide) ('"' :: (E ++ '"' :: m)), uk_value hE hm1 hm2]

theorem sep_head {r : List Char} :
    (([',', '\n', ' ', ' ', ' ', ' '] ++ r).head?) ≠ some ':' := by
  simp

theorem ukStep?_none_sep_key {K : List Char} (r : List Char) (hK : K ≠ [])
    (hKh : K.head? ≠ some ':') :
    ukStep? ([',', '\n', ' ', ' ', ' ', ' '] ++ '"' :: (K ++ r)) = none := by
  apply ukStep?_none_of_colon
  have hpass : ∀ c ∈ ([',', '\n', ' ', ' ', ' ', ' '] : List Char),
      (fun x => !exclChar x) c = true := by decide
  rw [List.dropWhile_append_of_pos hpass, List.dropWhile_cons, if_neg (by decide)]
  simp only [List.tail_cons]
  rcases K with _ | ⟨a, as⟩
  · exact absurd rfl hK
  · simp only [List.cons_append, List.head?_cons]
    simpa using hKh

/-- The full key-unquoting pass on a four-field `JSON.stringify` body:
exactly the four keys lose their quotes; every value is untouched. -/
theorem uk_json4 {K1 K2 K3 K4 E1 E2 E3 E4 : List Char}
    (hK1 : K1 ≠ []) (hK1c : ∀ c ∈ K1, exclChar c = false)
    (hK2 : K2 ≠ []) (hK2c : ∀ c ∈ K2, exclChar c = false) (hK2h : K2.head? ≠ some ':')
    (hK3 : K3 ≠ []) (hK3c : ∀ c ∈ K3, exclChar c = false) (hK3h : K3.head? ≠ some ':')
    (hK4 : K4 ≠ []) (hK4c : ∀ c ∈ K4, exclChar c = false) (hK4h : K4.head? ≠ some ':')
    (hE1 : ∀ c ∈ E1, c ≠ '"') (hE2 : ∀ c ∈ E2, c ≠ '"')
    (hE3 : ∀ c ∈ E3, c ≠ '"') (hE4 : ∀ c ∈ E4, c ≠ '"') :
    uk (['\x7b', '\n', ' ', ' ', ' ', ' '] ++ '"' :: (K1 ++ '"' :: ':' :: (' ' :: '"' :: (E1 ++ '"' ::
       ([',', '\n', ' ', ' ', ' ', ' '] ++ '"' :: (K2 ++ '"' :: ':' :: (' ' :: '"' :: (E2 ++ '"' ::
       ([',', '\n', ' ', ' ', ' ', ' '] ++ '"' :: (K3 ++ '"' :: ':' :: (' ' :: '"' :: (E3 ++ '"' ::
       ([',', '\n', ' ', ' ', ' ', ' '] ++ '"' :: (K4 ++ '"' :: ':' :: (' ' :: '"' :: (E4 ++ '"' ::
       ['\n', '\x7d'])))))))))))))))) =
    ['\x7b', '\n', ' ', ' ', ' ', ' '] ++ (K1 ++ ':' :: ' ' :: '"' :: (E1 ++ '"' ::
      ([',', '\n', ' ', ' ', ' ', ' '] ++ (K2 ++ ':' :: ' ' :: '"' :: (E2 ++ '"' ::
      ([',', '\n', ' ', ' ', ' ', ' '] ++ (K3 ++ ':' :: ' ' :: '"' :: (E3 ++ '"' ::
      ([',', '\n', ' ', ' ', ' ', ' '] ++ (K4 ++ ':' :: ' ' :: '"' :: (E4 ++ '"' ::
      ['\n', '\x7d']))))))))))) := by
  have hsepH : ∀ c ∈ (['\x7b', '\n', ' ', ' ', ' ', ' '] : List Char), c ≠ '"' := by
    decide
  have hsepM : ∀ c ∈ ([',', '\n', ' ', ' ', ' ', ' '] : List Char), c ≠ '"' := by
    decide
  rw [uk_field hsepH hK1 hK1c hE1 sep_head (ukStep?_none_sep_key _ hK2 hK2h)]
  rw [uk_field hsepM hK2 hK2c hE2 sep_head (ukStep?_none_sep_key _ hK3 hK3h)]
  rw [uk_field hsepM hK3 hK3c hE3 sep_head (ukStep?_none_sep_key _ hK4 hK4h)]
  rw [uk_field hsepM hK4 hK4c hE4 (by decide) (by decide)]
  have hend : uk ['\n', '\x7d'] = ['\n', '\x7d'] := by decide
  rw [hend]

theorem escString_data (s : String) : (escString s).data = escL s.data := rfl

theorem unquoteKeys_data (s : String) : (unquoteKeys s).data = uk s.data := rfl

theorem data_openBrace : ("\x7b\n" : String).data = ['\x7b', '\n'] := rfl

theorem data_sp4 : ("    " : String).data = [' ', ' ', ' ', ' '] := rfl

theorem data_q : ("\"" : String).data = ['"'] := rfl

theorem data_colonSp : (": " : String).data = [':', ' '] := rfl

theorem data_commaNl : (",\n" : String).data = [',', '\n'] := rfl

theorem data_closeBrace : ("\n\x7d" : String).data = ['\n', '\x7d'] := rfl

theorem data_semi : (";\n" : String).data = [';', '\n'] := rfl

theorem data_headDecl : ("export const buildInfo = \x7b\n    " : String).data =
    ("export const buildInfo = " : String).data ++
      ['\x7b', '\n', ' ', ' ', ' ', ' '] := rfl

theorem data_fieldSep : ("\",\n    " : String).data =
    ['"', ',', '\n', ' ', ' ', ' ', ' '] := rfl

theorem data_colQ : (": \"" : String).data = [':', ' ', '"'] := rfl

theorem data_endDecl : ("\"\n\x7d;\n" : String).data =
    ['"', '\n', '\x7d', ';', '\n'] := rfl

/-- The characters of a four-field `JSON.stringify(_, null, 4)` body, in the
grouping used by the substitution lemmas. -/
theorem json4_data (k1 k2 k3 k4 v1 v2 v3 v4 : String) :
    (jsonStringifyObj4 [(k1, some v1), (k2, some v2), (k3, some v3), (k4, some v4)]).data =
    ['\x7b', '\n', ' ', ' ', ' ', ' '] ++ '"' :: (escL k1.data ++ '"' :: ':' :: (' ' :: '"' :: (escL v1.data ++ '"' ::
    ([',', '\n', ' ', ' ', ' ', ' '] ++ '"' :: (escL k2.data ++ '"' :: ':' :: (' ' :: '"' :: (escL v2.data ++ '"' ::
    ([',', '\n', ' ', ' ', ' ', ' '] ++ '"' :: (escL k3.data ++ '"' :: ':' :: (' ' :: '"' :: (escL v3.data ++ '"' ::
    ([',', '\n', ' ', ' ', ' ', ' '] ++ '"' :: (escL k4.data ++ '"' :: ':' :: (' ' :: '"' :: (escL v4.data ++ '"' ::
    ['\n', '\x7d']))))))))))))))) := by
  show (("\x7b\n" ++
      joinFields ([(k1, v1), (k2, v2), (k3, v3), (k4, v4)].map renderField) ++
      "\n\x7d")).data = _
  simp only [List.map, joinFields, renderField, jsonQuote, String.data_append,
    escString_data, data_openBrace, data_sp4, data_q, data_colonSp,
    data_commaNl, data_closeBrace, List.cons_append, List.nil_append,
    List.append_assoc]

/-- Serialization of a four-field record whose keys are plain identifiers
and whose values contain no double quote: the keys are rendered unquoted,
the values double-quoted with `JSON.stringify` escaping and otherwise
untouched. -/
theorem serialize_four (k1 k2 k3 k4 v1 v2 v3 v4 : String)
    (hk1e : escL k1.data = k1.data) (hk1 : k1.data ≠ [])
    (hk1c : ∀ c ∈ k1.data, exclChar c = false)
    (hk2e : escL k2.data = k2.data) (hk2 : k2.data ≠ [])
    (hk2c : ∀ c ∈ k2.data, exclChar c = false) (hk2h : k2.data.head? ≠ some ':')
    (hk3e : escL k3.data = k3.data) (hk3 : k3.data ≠ [])
    (hk3c : ∀ c ∈ k3.data, exclChar c = false) (hk3h : k3.data.head? ≠ some ':')
    (hk4e : escL k4.data = k4.data) (hk4 : k4.data ≠ [])
    (hk4c : ∀ c ∈ k4.data, exclChar c = false) (hk4h : k4.data.head? ≠ some ':')
    (hv1 : ∀ c ∈ v1.data, c ≠ '"') (hv2 : ∀ c ∈ v2.data, c ≠ '"')
    (hv3 : ∀ c ∈ v3.data, c ≠ '"') (hv4 : ∀ c ∈ v4.data, c ≠ '"') :
    serialize [(k1, some v1), (k2, some v2), (k3, some v3), (k4, some v4)] =
      autoGenComment ++ "export const buildInfo = \x7b\n    " ++ k1 ++ ": \"" ++
      escString v1 ++ "\",\n    " ++ k2 ++ ": \"" ++ escString v2 ++
      "\",\n    " ++ k3 ++ ": \"" ++ escString v3 ++ "\",\n    " ++ k4 ++
      ": \"" ++ escString v4 ++ "\"\n\x7d;\n" := by
  apply dataInj
  have hjson := json4_data k1 k2 k3 k4 v1 v2 v3 v4
  rw [hk1e, hk2e, hk3e, hk4e] at hjson
  have huk := uk_json4 hk1 hk1c hk2 hk2c hk2h hk3 hk3c hk3h hk4 hk4c hk4h
    (escL_no_quote hv1) (escL_no_quote hv2) (escL_no_quote hv3)
    (escL_no_quote hv4)
  show (autoGenComment ++ "export const buildInfo = " ++
      unquoteKeys (jsonStringifyObj4
        [(k1, some v1), (k2, some v2), (k3, some v3), (k4, some v4)]) ++
      ";\n").data = _
  simp only [String.data_append, unquoteKeys_data]
  rw [hjson, huk]
  simp only [String.data_append, escString_data, data_headDecl, data_fieldSep,
    data_colQ, data_endDecl, data_semi, List.cons_append, List.nil_append,
    List.append_assoc]

theorem data_openBrace4 : ("\x7b\n    " : String).data =
    ['\x7b', '\n', ' ', ' ', ' ', ' '] := rfl

/-- The joined rendered field lines (with the closing newline and brace
appended) form the `jsonFieldsL` text after the first indent. -/
theorem joinFields_data :
    ∀ (rest : List (String × String)) (kv : String × String),
      (joinFields ((kv :: rest).map renderField)).data ++ ['\n', '\x7d'] =
        [' ', ' ', ' ', ' '] ++ jsonFieldsL (kv :: rest) := by
  intro rest
  induction rest with
  | nil =>
    intro kv
    rcases kv with ⟨k, v⟩
    show (renderField (k, v)).data ++ ['\n', '\x7d'] = _
    simp only [renderField, jsonQuote, String.data_append, escString_data,
      data_sp4, data_q, data_colonSp, List.append_assoc, List.cons_append,
      List.nil_append]
    rfl
  | cons kv2 rs ih =>
    intro kv
    rcases kv with ⟨k, v⟩
    rcases kv2 with ⟨k2, v2⟩
    show (renderField (k, v) ++ ",\n" ++
        joinFields (((k2, v2) :: rs).map renderField)).data ++ ['\n', '\x7d'] = _
    have h := ih (k2, v2)
    simp only [renderField, jsonQuote, String.data_append, escString_data,
      data_sp4, data_q, data_colonSp, data_commaNl, List.append_assoc,
      List.cons_append, List.nil_append] at h ⊢
    rw [h]
    rfl

/-- Any nonempty `jsonFieldsL` text starts with a quote and the escaped
first key. -/
theorem jsonFieldsL_cons_shape (k2 v2 : String) (rs : List (String × String)) :
    ∃ X, jsonFieldsL ((k2, v2) :: rs) = '"' :: (escL k2.data ++ X) := by
  rcases rs with _ | ⟨a, b⟩
  · exact ⟨_, rfl⟩
  · exact ⟨_, rfl⟩

/-- The key-unquoting pass over the body of any nonempty present-field
list: every key loses its quotes, every value is untouched, provided the
keys are plain identifiers and the values contain no double quote. -/
theorem uk_jsonFields :
    ∀ (ps : List (String × String)), ps ≠ [] →
      (∀ kv ∈ ps, escL kv.1.data = kv.1.data ∧ kv.1.data ≠ [] ∧
        (∀ c ∈ kv.1.data, exclChar c = false) ∧ kv.1.data.head? ≠ some ':') →
      (∀ kv ∈ ps, ∀ c ∈ kv.2.data, c ≠ '"') →
      uk (jsonFieldsL ps) = bareFieldsL ps := by
  intro ps
  induction ps with
  | nil => intro h; exact absurd rfl h
  | cons kv rest ih =>
    intro _ hkeys hvals
    rcases kv with ⟨k, v⟩
    obtain ⟨hke, hkne, hkc, -⟩ := hkeys (k, v) (List.mem_cons_self _ _)
    have hEv : ∀ c ∈ escL v.data, c ≠ '"' :=
      escL_no_quote (hvals (k, v) (List.mem_cons_self _ _))
    rcases rest with _ | ⟨kv2, rs⟩
    · show uk ('"' :: (escL k.data ++ '"' :: ':' :: (' ' :: '"' ::
        (escL v.data ++ '"' :: ['\n', '\x7d'])))) = _
      rw [hke, uk_key_match hkne hkc, uk_cons_ne (by decide),
        uk_value hEv (by decide) (by decide)]
      have hend : uk ['\n', '\x7d'] = ['\n', '\x7d'] := by decide
      rw [hend]
      rfl
    · rcases kv2 with ⟨k2, v2⟩
      obtain ⟨hk2e, hk2ne, -, hk2h⟩ :=
        hkeys (k2, v2) (List.mem_cons_of_mem _ (List.mem_cons_self _ _))
      obtain ⟨X, hX⟩ := jsonFieldsL_cons_shape k2 v2 rs
      show uk ('"' :: (escL k.data ++ '"' :: ':' :: (' ' :: '"' ::
        (escL v.data ++ '"' ::
          ([',', '\n', ' ', ' ', ' ', ' '] ++ jsonFieldsL ((k2, v2) :: rs)))))) = _
      rw [hke, hX, hk2e, uk_key_match hkne hkc, uk_cons_ne (by decide),
        uk_value hEv sep_head (ukStep?_none_sep_key X hk2ne hk2h),
        uk_append_noquote (by decide), ← hk2e, ← hX,
        ih (by simp)
          (fun x hx => hkeys x (List.mem_cons_of_mem _ hx))
          (fun x hx => hvals x (List.mem_cons_of_mem _ hx))]
      rfl

/-- The expected bare rendering (with the closing newline and brace
appended) agrees with `bareFieldsL`. -/
theorem bareFields_data :
    ∀ (rest : List (String × String)) (kv : String × String),
      (bareFields (kv :: rest)).data ++ ['\n', '\x7d'] =
        bareFieldsL (kv :: rest) := by
  intro rest
  induction rest with
  | nil =>
    intro kv
    rcases kv with ⟨k, v⟩
    show (k ++ ": \"" ++ escString v ++ "\"").data ++ ['\n', '\x7d'] = _
    simp only [String.data_append, escString_data, data_colQ, data_q,
      List.append_assoc, List.cons_append, List.nil_append]
    rfl
  | cons kv2 rs ih =>
    intro kv
    rcases kv with ⟨k, v⟩
    rcases kv2 with ⟨k2, v2⟩
    show (k ++ ": \"" ++ escString v ++ "\",\n    " ++
        bareFields ((k2, v2) :: rs)).data ++ ['\n', '\x7d'] = _
    have h := ih (k2, v2)
    simp only [String.data_append, escString_data, data_colQ, data_fieldSep,
      List.append_assoc, List.cons_append, List.nil_append] at h ⊢
    rw [h]
    rfl

/-! ### Claims -/

theorem presentFields_none_cons (k : String) (l : List (String × Option String)) :
    presentFields ((k, none) :: l) = presentFields l := rfl

/-- C2 counterexample: with a failed user lookup the record is
`(user, none)`, but the serialized text is an empty object literal that
does not contain the key `user` at all, contradicting the claim that the
key is rendered with a no-value literal. -/
theorem c2_counterexample :
    (getGitUser ⟨"", "boom"⟩).1 = none ∧
    containsSeg "user".data (serialize [("user", none)]).data = false ∧
    serialize [("user", none)] =
      "// Angular build information, automatically generated by `angular-build-info`\nexport const buildInfo = \x7b\x7d;\n" := by
  refine ⟨by decide, by decide, by decide⟩

/-- C2 amended: the serializer omits a present-with-absent-value field from
the output entirely — serializing a record with an absent field yields
byte-identical text to serializing the record without that field. -/
theorem c2_theorem (pre post : List (String × Option String)) (k : String) :
    serialize (pre ++ (k, none) :: post) = serialize (pre ++ post) := by
  have h : presentFields (pre ++ (k, none) :: post) =
      presentFields (pre ++ post) := by
    rw [presentFields_append, presentFields_append, presentFields_none_cons]
  unfold serialize jsonStringifyObj4
  rw [h]

/-- C3: for every flag subset, the assembled record has exactly the keys
whose suppression flag is absent, in the fixed order hash, user, version,
timestamp — independently of the lookup outcomes, so a failed lookup still
contributes its key. -/
theorem c3_theorem (w : World) :
    (assembleRecord w).map Prod.fst =
      ["hash", "user", "version", "timestamp"].filter
        (fun k => !(w.args.contains (suppressionFlag k))) := by
  have s1 : suppressionFlag "hash" = "--no-hash" := by decide
  have s2 : suppressionFlag "user" = "--no-user" := by decide
  have s3 : suppressionFlag "version" = "--no-version" := by decide
  have s4 : suppressionFlag "timestamp" = "--no-time" := by decide
  unfold assembleRecord
  by_cases hm1 : "--no-hash" ∈ w.args <;>
    by_cases hm2 : "--no-user" ∈ w.args <;>
      by_cases hm3 : "--no-version" ∈ w.args <;>
        by_cases hm4 : "--no-time" ∈ w.args <;>
          simp [List.filter, s1, s2, s3, s4, hm1, hm2, hm3, hm4]

/-- C8: serialization is a deterministic function of the record — two runs
on equal records give byte-identical text — and the text decomposes as the
fixed auto-generated comment line, the declaration head, the key-unquoted
`JSON.stringify` body, and the closing semicolon. -/
theorem c8_theorem (r₁ r₂ : List (String × Option String)) (h : r₁ = r₂) :
    serialize r₁ = serialize r₂ ∧
    (serialize r₁).data = autoGenComment.data ++
      (("export const buildInfo = " : String).data ++
        (uk (jsonStringifyObj4 r₁).data ++ (";\n" : String).data)) := by
  subst h
  refine ⟨rfl, ?_⟩
  show (autoGenComment ++ "export const buildInfo = " ++
      unquoteKeys (jsonStringifyObj4 r₁) ++ ";\n").data = _
  simp [String.data_append, unquoteKeys_data, List.append_assoc]

theorem c8_witness :
    serialize [("hash", some "1e872b5")] = serialize [("hash", some "1e872b5")] ∧
    (serialize [("hash", some "1e872b5")]).data = autoGenComment.data ++
      (("export const buildInfo = " : String).data ++
        (uk (jsonStringifyObj4 [("hash", some "1e872b5")]).data ++
          (";\n" : String).data)) :=
  c8_theorem [("hash", some "1e872b5")] [("hash", some "1e872b5")] rfl

/-- C9: mode selection is a first-match priority chain — `--init` wins and
runs only the scaffold flow, else `--help` prints the usage with no file
output, else the full pipeline runs. -/
theorem c9_theorem (w : World) :
    (w.args.contains "--init" = true → start w = initRun w) ∧
    (w.args.contains "--init" = false → w.args.contains "--help" = true →
      start w = helpRun ∧ helpRun.written = none ∧ helpRun.thrown = none) ∧
    (w.args.contains "--init" = false → w.args.contains "--help" = false →
      start w = buildInfo w) := by
  refine ⟨?_, ?_, ?_⟩
  · intro h
    unfold start
    rw [h, if_pos rfl]
  · intro h1 h2
    unfold start
    rw [h1, h2, if_neg Bool.false_ne_true, if_pos rfl]
    exact ⟨rfl, rfl, rfl⟩
  · intro h1 h2
    unfold start
    rw [h1, h2, if_neg Bool.false_ne_true, if_neg Bool.false_ne_true]

/-- C9 witness: with both `--init` and `--help` present, only the scaffold
flow runs. -/
theorem c9_witness :
    start ⟨["--init", "--help"], ⟨"", ""⟩, ⟨"", ""⟩, "1.0.0",
        "May 01, 2020 12:00:00", "/proj", true⟩ =
      initRun ⟨["--init", "--help"], ⟨"", ""⟩, ⟨"", ""⟩, "1.0.0",
        "May 01, 2020 12:00:00", "/proj", true⟩ :=
  (c9_theorem _).1 (by decide)

/-- C1 counterexample: with `--init` present, an unrecognized token does
not abort the run — the scaffold flow runs and writes the output file. -/
theorem c1_counterexample :
    "--bogus" ∈ (["--init", "--bogus"] : List String) ∧
    "--bogus" ∉ opts ∧
    (start ⟨["--init", "--bogus"], ⟨"1e872b5\n", ""⟩, ⟨"Jane Doe\n", ""⟩,
      "1.0.0", "May 01, 2020 12:00:00", "/proj", true⟩).thrown = none ∧
    (start ⟨["--init", "--bogus"], ⟨"1e872b5\n", ""⟩, ⟨"Jane Doe\n", ""⟩,
      "1.0.0", "May 01, 2020 12:00:00", "/proj", true⟩).written =
      some ("/proj/src/build.ts",
        serialize (initTemplate "May 01, 2020 12:00:00")) := by
  refine ⟨by decide, by decide, by decide, ?_⟩
  set_option maxRecDepth 4000 in decide

/-- C1 amended: when neither `--init` nor `--help` is present, an argument
list containing an unrecognized token makes the run abort by throwing the
error naming the first offending token, with no metadata-lookup output and
no file written. -/
theorem c1_theorem (w : World)
    (hinit : w.args.contains "--init" = false)
    (hhelp : w.args.contains "--help" = false)
    (hbad : ∃ a ∈ w.args, a ∉ opts) :
    ∃ bad, bad ∈ w.args ∧ bad ∉ opts ∧
      start w = ⟨[.start "Collecting build information..."],
        some (unknownArgMsg bad), none⟩ := by
  rcases checkArgs_error hbad with ⟨bad, h1, h2, h3⟩
  refine ⟨bad, h1, h2, ?_⟩
  unfold start
  rw [hinit, hhelp, if_neg Bool.false_ne_true, if_neg Bool.false_ne_true]
  unfold buildInfo
  rw [h3]

theorem c1_witness :
    ∃ bad, bad ∈ (⟨["--foo"], ⟨"", ""⟩, ⟨"", ""⟩, "1.0.0", "t", "/p", true⟩ :
        World).args ∧
      bad ∉ opts ∧
      start ⟨["--foo"], ⟨"", ""⟩, ⟨"", ""⟩, "1.0.0", "t", "/p", true⟩ =
        ⟨[.start "Collecting build information..."],
          some (unknownArgMsg bad), none⟩ :=
  c1_theorem _ (by decide) (by decide) ⟨"--foo", by decide, by decide⟩

/-- C4 counterexample: for an external text with an interior newline before
its final one, the returned value still ends in a newline, since JS
`replace` with a string pattern removes only the first occurrence. -/
theorem c4_counterexample :
    (getGitUser ⟨"x\ny\n", ""⟩).1 = some "xy\n" ∧
    ("xy\n" : String).data.getLast? = some '\n' ∧
    (getCommitHash ⟨"x\ny\n", ""⟩).1 = some "xy\n" := by
  refine ⟨by decide, by decide, by decide⟩

/-- C4 amended: when the external text is a single line followed by one
trailing newline, both adapters return exactly the line, which contains no
newline at all. -/
theorem c4_theorem (s : String) (h : '\n' ∉ s.data) :
    (getGitUser ⟨s ++ "\n", ""⟩).1 = some s ∧
    (getCommitHash ⟨s ++ "\n", ""⟩).1 = some s ∧
    s.data.getLast? ≠ some '\n' := by
  have hd : (s ++ "\n").data = s.data ++ ['\n'] := by
    rw [String.data_append]
  have hstrip : stripNewline (s ++ "\n") = s := by
    unfold stripNewline
    rw [hd, stripNL_append_newline h]
  refine ⟨?_, ?_, ?_⟩
  · unfold getGitUser
    rw [if_neg (by simp), hstrip]
  · unfold getCommitHash
    rw [if_neg (by simp), hstrip]
  · intro hcon
    exact h (List.mem_of_mem_getLast? hcon)

theorem c4_witness :
    (getGitUser ⟨"abc1234" ++ "\n", ""⟩).1 = some "abc1234" ∧
    (getCommitHash ⟨"abc1234" ++ "\n", ""⟩).1 = some "abc1234" ∧
    ("abc1234" : String).data.getLast? ≠ some '\n' :=
  c4_theorem "abc1234" (by decide)

/-- C5: a failed lookup (nonempty stderr) is recovered locally: the adapter
returns the absent value together with an error-severity log, the pipeline
completes without throwing, and both error messages appear in the run's
console output. -/
theorem c5_theorem (w : World) (hargs : checkArgs w.args = .ok ())
    (hnh : w.args.contains "--no-hash" = false)
    (hnu : w.args.contains "--no-user" = false)
    (hh : w.execHash.stderr ≠ "") (hu : w.execUser.stderr ≠ "") :
    getCommitHash w.execHash =
      (none, [.error "Error getting latest commit hash, skipping..."]) ∧
    getGitUser w.execUser =
      (none, [.error "Error getting git user, skipping..."]) ∧
    (buildInfo w).thrown = none ∧
    LogMsg.error "Error getting latest commit hash, skipping..." ∈
      (buildInfo w).logs ∧
    LogMsg.error "Error getting git user, skipping..." ∈ (buildInfo w).logs := by
  have hc : getCommitHash w.execHash =
      (none, [.error "Error getting latest commit hash, skipping..."]) := by
    unfold getCommitHash
    rw [if_pos hh]
  have hg : getGitUser w.execUser =
      (none, [.error "Error getting git user, skipping..."]) := by
    unfold getGitUser
    rw [if_pos hu]
  have hlook : lookupLogs w =
      [.error "Error getting latest commit hash, skipping...",
        .error "Error getting git user, skipping..."] := by
    unfold lookupLogs
    rw [hnh, hnu, hc, hg]
    simp
  refine ⟨hc, hg, ?_, ?_, ?_⟩ <;>
    · unfold buildInfo
      rw [hargs]
      by_cases hwk : w.writeOk = true <;> simp [hwk, hlook]

theorem c5_witness :
    getCommitHash ⟨"", "err1"⟩ =
      (none, [.error "Error getting latest commit hash, skipping..."]) ∧
    getGitUser ⟨"", "err2"⟩ =
      (none, [.error "Error getting git user, skipping..."]) ∧
    (buildInfo ⟨[], ⟨"", "err1"⟩, ⟨"", "err2"⟩, "1.0.0", "t", "/p", true⟩).thrown =
      none ∧
    LogMsg.error "Error getting latest commit hash, skipping..." ∈
      (buildInfo ⟨[], ⟨"", "err1"⟩, ⟨"", "err2"⟩, "1.0.0", "t", "/p", true⟩).logs ∧
    LogMsg.error "Error getting git user, skipping..." ∈
      (buildInfo ⟨[], ⟨"", "err1"⟩, ⟨"", "err2"⟩, "1.0.0", "t", "/p", true⟩).logs :=
  c5_theorem ⟨[], ⟨"", "err1"⟩, ⟨"", "err2"⟩, "1.0.0", "t", "/p", true⟩
    rfl rfl rfl (by decide) (by decide)

/-- C7: on a write failure the pipeline logs an error naming the
destination path, writes nothing, and still terminates without throwing. -/
theorem c7_theorem (w : World) (hargs : ∀ a ∈ w.args, a ∈ opts)
    (hinit : w.args.contains "--init" = false)
    (hhelp : w.args.contains "--help" = false)
    (hw : w.writeOk = false) :
    (start w).thrown = none ∧ (start w).written = none ∧
    LogMsg.error ("An error occured writing to `" ++ exportPath w ++
      "`, does the path exist?") ∈ (start w).logs := by
  have hca := checkArgs_ok hargs
  unfold start
  rw [hinit, hhelp, if_neg Bool.false_ne_true, if_neg Bool.false_ne_true]
  unfold buildInfo
  rw [hca, hw]
  simp

theorem c7_witness :
    (start ⟨["--no-time"], ⟨"h\n", ""⟩, ⟨"u\n", ""⟩, "1.0.0", "t", "/p",
      false⟩).thrown = none ∧
    (start ⟨["--no-time"], ⟨"h\n", ""⟩, ⟨"u\n", ""⟩, "1.0.0", "t", "/p",
      false⟩).written = none ∧
    LogMsg.error ("An error occured writing to `" ++
      exportPath ⟨["--no-time"], ⟨"h\n", ""⟩, ⟨"u\n", ""⟩, "1.0.0", "t", "/p",
        false⟩ ++ "`, does the path exist?") ∈
      (start ⟨["--no-time"], ⟨"h\n", ""⟩, ⟨"u\n", ""⟩, "1.0.0", "t", "/p",
        false⟩).logs :=
  c7_theorem _ (by decide) (by decide) (by decide) rfl

/-- C6 counterexample: for the value `a":b`, the correctly escaped quoted
value appears in the `JSON.stringify` body but not in the final output —
the key-unquoting substitution rewrote text inside the value. -/
theorem c6_counterexample :
    containsSeg (jsonQuote "a\":b").data
      (jsonStringifyObj4 [("hash", some "a\":b")]).data = true ∧
    containsSeg (jsonQuote "a\":b").data
      (serialize [("hash", some "a\":b")]).data = false ∧
    serialize [("hash", some "a\":b")] =
      "// Angular build information, automatically generated by `angular-build-info`\nexport const buildInfo = \x7b\n    hash: a\\:b\"\n\x7d;\n" := by
  refine ⟨?_, ?_, ?_⟩ <;> set_option maxRecDepth 4000 in decide

/-- C6 amended: for every BuildRecord whose keys are plain identifiers,
the serializer renders each present key as an unquoted bare identifier
followed by a colon and each present value double-quoted with
`JSON.stringify` escaping, leaving the value text unaltered, provided no
value contains a double-quote character (absent fields are omitted, per
C2). -/
theorem c6_theorem (fields : List (String × Option String))
    (hkeys : ∀ kv ∈ presentFields fields, escL kv.1.data = kv.1.data ∧
      kv.1.data ≠ [] ∧ (∀ c ∈ kv.1.data, exclChar c = false) ∧
      kv.1.data.head? ≠ some ':')
    (hvals : ∀ kv ∈ presentFields fields, ∀ c ∈ kv.2.data, c ≠ '"') :
    serialize fields = autoGenComment ++ "export const buildInfo = " ++
      bareRender (presentFields fields) ++ ";\n" := by
  have main : uk (jsonStringifyObj4 fields).data =
      (bareRender (presentFields fields)).data := by
    rcases hps : presentFields fields with _ | ⟨kv, rest⟩
    · unfold jsonStringifyObj4
      rw [hps]
      rfl
    · rw [hps] at hkeys hvals
      unfold jsonStringifyObj4
      rw [hps]
      have hbody : ("\x7b\n" ++ joinFields ((kv :: rest).map renderField) ++
          "\n\x7d").data = ['\x7b', '\n', ' ', ' ', ' ', ' '] ++
          jsonFieldsL (kv :: rest) := by
        simp only [String.data_append, data_openBrace, data_closeBrace,
          List.append_assoc]
        rw [joinFields_data rest kv]
        rfl
      have hbare : (bareRender (kv :: rest)).data =
          ['\x7b', '\n', ' ', ' ', ' ', ' '] ++ bareFieldsL (kv :: rest) := by
        show ("\x7b\n    " ++ bareFields (kv :: rest) ++ "\n\x7d").data = _
        simp only [String.data_append, data_openBrace4, data_closeBrace,
          List.append_assoc]
        rw [bareFields_data rest kv]
      rw [hbody, uk_append_noquote (by decide),
        uk_jsonFields (kv :: rest) (by simp) hkeys hvals, hbare]
  apply dataInj
  show (autoGenComment ++ "export const buildInfo = " ++
      unquoteKeys (jsonStringifyObj4 fields) ++ ";\n").data = _
  simp only [String.data_append, unquoteKeys_data, List.append_assoc]
  rw [main]

/-- C6 witness at a suppressed-and-failed-field record: `hash` absent,
only `user` and `version` present. -/
theorem c6_witness :
    serialize [("hash", none), ("user", some "Jane Doe"),
      ("version", some "2.3.1")] =
      autoGenComment ++ "export const buildInfo = " ++
      bareRender (presentFields [("hash", none), ("user", some "Jane Doe"),
        ("version", some "2.3.1")]) ++ ";\n" :=
  c6_theorem [("hash", none), ("user", some "Jane Doe"),
      ("version", some "2.3.1")]
    (by decide) (by decide)

/-- C10: the scaffold flow writes the serialized placeholder record with
keys in the order user, hash, version, timestamp, the fixed sample values,
the live timestamp, and the auto-generated comment line prefix. -/
theorem c10_theorem (w : World) (hinit : w.args.contains "--init" = true)
    (hwk : w.writeOk = true) (hq : ∀ c ∈ w.now.data, c ≠ '"') :
    (initTemplate w.now).map Prod.fst =
      ["user", "hash", "version", "timestamp"] ∧
    (start w).written = some (exportPath w,
      autoGenComment ++ "export const buildInfo = \x7b\n    " ++ "user" ++
      ": \"" ++ escString "Octocat" ++ "\",\n    " ++ "hash" ++ ": \"" ++
      escString "1e872b5" ++ "\",\n    " ++ "version" ++ ": \"" ++
      escString "1.0.0" ++ "\",\n    " ++ "timestamp" ++ ": \"" ++
      escString w.now ++ "\"\n\x7d;\n") := by
  refine ⟨rfl, ?_⟩
  have hs := serialize_four "user" "hash" "version" "timestamp"
    "Octocat" "1e872b5" "1.0.0" w.now
    (by decide) (by decide) (by decide)
    (by decide) (by decide) (by decide) (by decide)
    (by decide) (by decide) (by decide) (by decide)
    (by decide) (by decide) (by decide) (by decide)
    (by decide) (by decide) (by decide) hq
  unfold start
  rw [hinit, if_pos rfl]
  unfold initRun
  rw [hwk, if_pos rfl]
  show some (exportPath w, serialize (initTemplate w.now)) = _
  rw [show initTemplate w.now = [("user", some "Octocat"),
    ("hash", some "1e872b5"), ("version", some "1.0.0"),
    ("timestamp", some w.now)] from rfl, hs]

theorem c10_witness :
    (initTemplate (⟨["--init"], ⟨"", ""⟩, ⟨"", ""⟩, "1.0.0",
        "May 01, 2020 12:00:00", "/proj", true⟩ : World).now).map Prod.fst =
      ["user", "hash", "version", "timestamp"] ∧
    (start ⟨["--init"], ⟨"", ""⟩, ⟨"", ""⟩, "1.0.0", "May 01, 2020 12:00:00",
        "/proj", true⟩).written =
      some (exportPath ⟨["--init"], ⟨"", ""⟩, ⟨"", ""⟩, "1.0.0",
          "May 01, 2020 12:00:00", "/proj", true⟩,
        autoGenComment ++ "export const buildInfo = \x7b\n    " ++ "user" ++
        ": \"" ++ escString "Octocat" ++ "\",\n    " ++ "hash" ++ ": \"" ++
        escString "1e872b5" ++ "\",\n    " ++ "version" ++ ": \"" ++
        escString "1.0.0" ++ "\",\n    " ++ "timestamp" ++ ": \"" ++
        escString "May 01, 2020 12:00:00" ++ "\"\n\x7d;\n") :=
  c10_theorem ⟨["--init"], ⟨"", ""⟩, ⟨"", ""⟩, "1.0.0",
    "May 01, 2020 12:00:00", "/proj", true⟩ (by decide) rfl (by decide)
